import Mathlib

/-!
Verification of the type-engine core of a Lua static analyzer / language server.

This file shallow-embeds the parts of the source relevant to the generic
constraint diagnostic pass (`generic_constraint_mismatch.rs`), the enum-origin
declaration chasing (`semantic/decl/mod.rs`), the hover humanizer
(`hover_humanize.rs`), and the code-action builder (`build_actions.rs`),
and proves or refutes the specification claims about them.

Functions of the repository that the analysed files merely call
(`type_check`, `humanize_type`, expression inference, the database indices,
string renderers) are taken as parameters of the embedded functions, so every
theorem quantifies over them; behavior fixed by the spec but whose code is not
among the analysed files is modelled from the spec and marked as such.
-/

/-- Render verbosity levels of the humanization engine
(`RenderLevel` in the source). -/
inductive RenderLevel where
  | minimal
  | simple
  | normal
  | detailed
  deriving DecidableEq

/-- Identifier of a generic template parameter slot (`GenericTplId`):
function-scoped (`Func(index)`) or type-scoped (`Type(index)`). -/
inductive GenericTplId where
  | tfunc (idx : Nat)
  | ttype (idx : Nat)
  deriving DecidableEq

/-- The tagged Lua type representation (`LuaType`).  Type declaration ids are
their full-name strings, signature ids are numeric keys into the signature
index.  A `docFunction` carries the fields of the source's `LuaFunctionType`
inline (async flag, colon-define flag, typed parameter list, return type). -/
inductive LuaType where
  | luaNil
  | boolean
  | integerConst (v : Int)
  | floatConst
  | stringConst (s : String)
  | docIntegerConst (v : Int)
  | docStringConst (s : String)
  | str
  | ref (id : String)
  | generic (base : String) (params : List LuaType)
  | union (ts : List LuaType)
  | multiLineUnion (branches : List (LuaType × Option String))
  | function
  | docFunction (isAsync : Bool) (isColonDefine : Bool)
      (params : List (String × Option LuaType)) (ret : LuaType)
  | signature (id : Nat)
  | tplRef (tpl : GenericTplId)
  | strTplRef (pre : String) (suf : String) (tpl : GenericTplId)
  | selfInfer

mutual

/-- Structural equality of two `LuaType`s (the `PartialEq` derived on the
source's `LuaType`). -/
def beqLuaType : LuaType → LuaType → Bool
  | LuaType.luaNil, LuaType.luaNil => true
  | LuaType.boolean, LuaType.boolean => true
  | LuaType.integerConst a, LuaType.integerConst b => a == b
  | LuaType.floatConst, LuaType.floatConst => true
  | LuaType.stringConst a, LuaType.stringConst b => a == b
  | LuaType.docIntegerConst a, LuaType.docIntegerConst b => a == b
  | LuaType.docStringConst a, LuaType.docStringConst b => a == b
  | LuaType.str, LuaType.str => true
  | LuaType.ref a, LuaType.ref b => a == b
  | LuaType.generic a ps, LuaType.generic b qs => a == b && beqLuaTypeList ps qs
  | LuaType.union ps, LuaType.union qs => beqLuaTypeList ps qs
  | LuaType.multiLineUnion ps, LuaType.multiLineUnion qs => beqLuaTypeBranches ps qs
  | LuaType.function, LuaType.function => true
  | LuaType.docFunction a c ps r, LuaType.docFunction b d qs s =>
      a == b && c == d && beqLuaTypeParams ps qs && beqLuaType r s
  | LuaType.signature a, LuaType.signature b => a == b
  | LuaType.tplRef a, LuaType.tplRef b => a == b
  | LuaType.strTplRef p s a, LuaType.strTplRef q t b => p == q && s == t && a == b
  | LuaType.selfInfer, LuaType.selfInfer => true
  | _, _ => false

/-- Elementwise equality of `LuaType` lists. -/
def beqLuaTypeList : List LuaType → List LuaType → Bool
  | [], [] => true
  | x :: xs, y :: ys => beqLuaType x y && beqLuaTypeList xs ys
  | _, _ => false

/-- Elementwise equality of named-parameter lists. -/
def beqLuaTypeParams :
    List (String × Option LuaType) → List (String × Option LuaType) → Bool
  | [], [] => true
  | (n, t) :: xs, (m, u) :: ys =>
      n == m && (match t, u with
        | none, none => true
        | some a, some b => beqLuaType a b
        | _, _ => false) && beqLuaTypeParams xs ys
  | _, _ => false

/-- Elementwise equality of multi-line-union branch lists. -/
def beqLuaTypeBranches :
    List (LuaType × Option String) → List (LuaType × Option String) → Bool
  | [], [] => true
  | (t, d) :: xs, (u, e) :: ys =>
      beqLuaType t u && d == e && beqLuaTypeBranches xs ys
  | _, _ => false

end

/-- Equality of optional types, delegating to `beqLuaType`
(structurally reducible when both sides are `none`). -/
def beqOptLuaType : Option LuaType → Option LuaType → Bool
  | none, none => true
  | some a, some b => beqLuaType a b
  | _, _ => false

/-- Equality of typed parameter lists as compared by the source
(`Vec<(String, Option<LuaType>)>` equality: names and types both). -/
def beqParams :
    List (String × Option LuaType) → List (String × Option LuaType) → Bool
  | [], [] => true
  | (n, t) :: xs, (m, u) :: ys => n == m && beqOptLuaType t u && beqParams xs ys
  | _, _ => false

/-- One function's type shape (the source's `LuaFunctionType`), as stored in
`Signature.overloads` and produced for concrete call expressions. -/
structure LuaFunctionType where
  isAsync : Bool
  isColonDefine : Bool
  params : List (String × Option LuaType)
  ret : LuaType

/-- Equality of two `LuaFunctionType`s (the source's `PartialEq`). -/
def beqFn (a b : LuaFunctionType) : Bool :=
  a.isAsync == b.isAsync && a.isColonDefine == b.isColonDefine &&
    beqParams a.params b.params && beqLuaType a.ret b.ret

/-- A function declaration's static shape (the source's `LuaSignature`),
restricted to the fields the analysed code reads. -/
structure LuaSignature where
  isColonDefine : Bool
  isAsync : Bool
  params : List (String × Option LuaType)
  overloads : List LuaFunctionType
  genericParams : List (String × Option LuaType)

/-- Failure reasons of the type compatibility checker
(`TypeCheckFailReason`). -/
inductive TypeCheckFailReason where
  | typeNotMatch
  | typeNotMatchWithReason (reason : String)
  | donotCheck
  | typeRecursion
  deriving DecidableEq

/-- `TypeCheckResult = Result<(), TypeCheckFailReason>`. -/
abbrev TypeCheckResult := Except TypeCheckFailReason Unit

/-- Whether a `TypeCheckResult` is `Ok` (`Result::is_ok`). -/
def resultIsOk : TypeCheckResult → Bool
  | Except.ok _ => true
  | Except.error _ => false

/-- Diagnostic codes; only the codes the analysed checkers distinguish are
represented, all others are collapsed into `otherCode`. -/
inductive DiagnosticCode where
  | genericConstraintMismatch
  | syntaxError
  | otherCode (n : Nat)
  deriving DecidableEq

/-- An emitted diagnostic: code, source range (an opaque token), message.
The optional data payload is always `None` in the analysed code and omitted. -/
structure Diagnostic where
  code : DiagnosticCode
  range : Nat
  message : String
  deriving DecidableEq

/-- The reason text extracted in `add_type_check_diagnostic`:
`TypeNotMatchWithReason` carries its own text, `TypeNotMatch` and `DonotCheck`
yield the empty string, `TypeRecursion` yields "type recursion". -/
def reasonMessage : TypeCheckFailReason → String
  | TypeCheckFailReason.typeNotMatchWithReason r => r
  | TypeCheckFailReason.typeNotMatch => ""
  | TypeCheckFailReason.donotCheck => ""
  | TypeCheckFailReason.typeRecursion => "type recursion"

/-- The English template of the `GenericConstraintMismatch` message:
the humanized bound followed by the reason text. -/
def constraintMessage (src reason : String) : String :=
  "the generic constraint must be a subclass of `" ++ src ++ "`. " ++ reason

/-- The diagnostic `add_type_check_diagnostic` emits for a failure `re`
against bound `ext` at range `rg`, with `hz` standing for
`humanize_type(db, _, RenderLevel::Simple)`. -/
def mkConstraintDiag (hz : LuaType → String) (rg : Nat) (ext : LuaType)
    (re : TypeCheckFailReason) : Diagnostic :=
  { code := DiagnosticCode.genericConstraintMismatch
    range := rg
    message := constraintMessage (hz ext) (reasonMessage re) }

/-- `add_type_check_diagnostic`: on `Ok` returns without emitting; on any
`Err` (including `DonotCheck`) appends one `GenericConstraintMismatch`
diagnostic whose message carries the humanized bound and the reason text. -/
def add_type_check_diagnostic (hz : LuaType → String) (diags : List Diagnostic)
    (rg : Nat) (ext : LuaType) (result : TypeCheckResult) : List Diagnostic :=
  match result with
  | Except.ok _ => diags
  | Except.error re => diags ++ [mkConstraintDiag hz rg ext re]

/-- `Vec::remove(0)` on a parameter list: `none` models the Rust panic on an
empty vector. -/
def vecRemoveFirst : List (String × Option LuaType) →
    Option (List (String × Option LuaType))
  | [] => none
  | _ :: t => some t

/-- The self-receiver adjustment of `check_call_expr` (the
`match (call_expr.is_colon_call(), signature.is_colon_define)` block):
matching syntaxes leave the list; a dot-defined signature called with colon
syntax drops the leading declared parameter (guarded against the empty list);
a colon-defined signature called with dot syntax gains a synthetic
`self : SelfInfer` parameter at position 0.  `none` models a panic. -/
def selfAdjustParams (isColonCall isColonDefine : Bool)
    (params : List (String × Option LuaType)) :
    Option (List (String × Option LuaType)) :=
  match isColonCall, isColonDefine with
  | true, true => some params
  | false, false => some params
  | false, true => some (("self", some LuaType.selfInfer) :: params)
  | true, false =>
      if params.length ≥ 1 then vecRemoveFirst params else some params

/-- Claim C1: the spec says a colon-defined signature called with dot syntax
has its leading `self` parameter removed (arity one less than declared).  The
code takes the opposite branch: with one declared parameter the effective list
has two entries, a synthetic `self : SelfInfer` having been prepended, and its
arity is not the declared arity minus one. -/
theorem c1_dot_call_on_colon_define_counterexample :
    selfAdjustParams false true [("x", none)] =
      some [("self", some LuaType.selfInfer), ("x", none)] ∧
    (selfAdjustParams false true [("x", none)]).map List.length ≠ some 0 := by
  constructor
  · rfl
  · intro h
    simp [selfAdjustParams] at h

/-- Claim C1 (amended): for every call to a colon-defined signature made with
dot syntax, the effective parameter list used for template checks gains a
synthetic leading `self : SelfInfer` parameter, so its arity is one more than
the declared parameter list. -/
theorem c1_dot_call_on_colon_define_amended
    (params : List (String × Option LuaType)) :
    selfAdjustParams false true params =
      some (("self", some LuaType.selfInfer) :: params) ∧
    (selfAdjustParams false true params).map List.length =
      some (params.length + 1) := by
  constructor
  · rfl
  · simp [selfAdjustParams]

/-- Claim C2: the spec says a non-colon-defined signature called with colon
syntax gains a synthetic leading `self : SelfInfer` parameter.  The code takes
the opposite branch: with one declared parameter the effective list is empty
(the leading declared parameter was removed), and no `self` is prepended. -/
theorem c2_colon_call_on_dot_define_counterexample :
    selfAdjustParams true false [("x", none)] = some [] ∧
    selfAdjustParams true false [("x", none)] ≠
      some [("self", some LuaType.selfInfer), ("x", none)] := by
  constructor
  · rfl
  · intro h
    simp [selfAdjustParams, vecRemoveFirst] at h

/-- Claim C2 (amended): for every call to a non-colon-defined signature made
with colon syntax, the effective parameter list has its leading declared
parameter removed (it is the tail of the declared list; an empty declared list
is left unchanged), so its arity is one less than the declared arity. -/
theorem c2_colon_call_on_dot_define_amended
    (params : List (String × Option LuaType)) :
    selfAdjustParams true false params = some params.tail ∧
    (selfAdjustParams true false params).map List.length =
      some (params.length - 1) := by
  cases params with
  | nil => exact ⟨rfl, rfl⟩
  | cons p ps =>
      constructor
      · simp [selfAdjustParams, vecRemoveFirst]
      · simp [selfAdjustParams, vecRemoveFirst]

/-- Claim C9: the branch of the self-receiver adjustment that drops the
leading parameter (colon-syntax call to a non-colon-defined signature) is
guarded by a length test, so it never removes from an empty list: on an empty
declared parameter list it returns the empty list, and the adjustment as a
whole is total (never panics) for every call/declaration shape and arity. -/
theorem c9_self_adjust_total (isColonCall isColonDefine : Bool)
    (params : List (String × Option LuaType)) :
    (selfAdjustParams isColonCall isColonDefine params).isSome = true ∧
    selfAdjustParams true false [] = some [] := by
  refine ⟨?_, rfl⟩
  cases isColonCall <;> cases isColonDefine <;> cases params <;>
    simp [selfAdjustParams, vecRemoveFirst]

/-- One entry of a doc tag's type list, already run through `infer_type`:
the inferred type and the syntax range of the applied type. -/
structure DocType where
  ty : LuaType
  range : Nat

/-- The per-position loop of `check_doc_tag_type` over the applied generic's
arguments, starting at position `i`: `generic_params.get(i)?` and the
`.clone()?` on the optional `extends` bound abort the whole function (`true`
in the returned pair; positions after the abort are not checked), a resolvable
bound is checked with `type_check` and a failure emits one diagnostic at the
applied type's range. -/
def checkGenericArgs (tc : LuaType → LuaType → TypeCheckResult)
    (hz : LuaType → String) (gps : List (String × Option LuaType)) (rg : Nat) :
    Nat → List LuaType → List Diagnostic × Bool
  | _, [] => ([], false)
  | i, a :: rest =>
    match gps[i]? with
    | none => ([], true)
    | some (_, none) => ([], true)
    | some (_, some ext) =>
      let tl := checkGenericArgs tc hz gps rg (i + 1) rest
      match tc ext a with
      | Except.ok _ => tl
      | Except.error re => (mkConstraintDiag hz rg ext re :: tl.1, tl.2)

/-- `check_doc_tag_type`: walk the tag's type list; non-generic entries are
skipped; for a generic application, look up the target declaration's generic
parameter list (`gp`, the `?` on a failed lookup aborts the function) and run
the per-position bound checks; an abort inside the position loop also stops
the remaining entries of the type list. -/
def check_doc_tag_type (tc : LuaType → LuaType → TypeCheckResult)
    (hz : LuaType → String)
    (gp : String → Option (List (String × Option LuaType))) :
    List DocType → List Diagnostic
  | [] => []
  | dt :: rest =>
    match dt.ty with
    | LuaType.generic base args =>
      match gp base with
      | none => []
      | some gps =>
        let r := checkGenericArgs tc hz gps dt.range 0 args
        if r.2 then r.1 else r.1 ++ check_doc_tag_type tc hz gp rest
    | _ => check_doc_tag_type tc hz gp rest

/-- The diagnostics the spec expects from a generic application, position by
position and independently: a position whose declaration carries an `extends`
bound contributes exactly one diagnostic at the application's range when
`type_check` fails and none when it passes; unbounded positions contribute
nothing. -/
def expectedConstraintDiags (tc : LuaType → LuaType → TypeCheckResult)
    (hz : LuaType → String) (gps : List (String × Option LuaType)) (rg : Nat) :
    Nat → List LuaType → List Diagnostic
  | _, [] => []
  | i, a :: rest =>
    (match gps[i]? with
     | some (_, some ext) =>
       match tc ext a with
       | Except.ok _ => []
       | Except.error re => [mkConstraintDiag hz rg ext re]
     | _ => []) ++ expectedConstraintDiags tc hz gps rg (i + 1) rest

/-- A concrete nominal type-check used to exercise the checkers on closed
inputs: identical named references and identical primitives are compatible,
everything else is `TypeNotMatch`. -/
def tcDemo : LuaType → LuaType → TypeCheckResult := fun e a =>
  match e, a with
  | LuaType.ref n, LuaType.ref m =>
      if n = m then Except.ok () else Except.error TypeCheckFailReason.typeNotMatch
  | LuaType.str, LuaType.str => Except.ok ()
  | LuaType.luaNil, LuaType.luaNil => Except.ok ()
  | _, _ => Except.error TypeCheckFailReason.typeNotMatch

/-- A concrete humanizer used to exercise the checkers on closed inputs. -/
def hzDemo : LuaType → String := fun t =>
  match t with
  | LuaType.ref n => n
  | LuaType.str => "string"
  | _ => "T"

/-- A concrete generic-parameter index with one declaration `Foo<T, U>` whose
first parameter is unbounded and whose second declares `extends Base`. -/
def gpDemo : String → Option (List (String × Option LuaType)) := fun s =>
  if s = "Foo" then
    some [("T", none), ("U", some (LuaType.ref "Base"))]
  else none

/-- Claim C3: the spec says every bounded position is checked independently of
whether earlier positions declare a bound.  In the code the `?` on an absent
bound aborts the loop: applying `Foo<nil, boolean>` where only position 1 is
bounded and its argument violates the bound produces no diagnostic at all,
where the claim demands exactly one at the application's range. -/
theorem c3_doc_tag_counterexample :
    check_doc_tag_type tcDemo hzDemo gpDemo
      [{ ty := LuaType.generic "Foo" [LuaType.luaNil, LuaType.boolean],
         range := 7 }] = [] ∧
    tcDemo (LuaType.ref "Base") LuaType.boolean =
      Except.error TypeCheckFailReason.typeNotMatch := by
  exact ⟨rfl, rfl⟩

/-- Claim C3 (amended): bounded positions of a doc-level generic application
are checked independently only while every position before and including them
declares a bound; the first position without a resolvable bound aborts the
remaining checks.  When every argument position declares a bound, the pass
emits exactly one `GenericConstraintMismatch` diagnostic at the applied type's
source range for each position whose argument fails `type_check` against its
bound, and none for compatible positions. -/
theorem c3_doc_tag_amended (tc : LuaType → LuaType → TypeCheckResult)
    (hz : LuaType → String)
    (gp : String → Option (List (String × Option LuaType)))
    (base : String) (gps : List (String × Option LuaType)) (rg : Nat)
    (args : List LuaType) (hgp : gp base = some gps)
    (hb : ∀ j, j < args.length → ∃ n e, gps[j]? = some (n, some e)) :
    check_doc_tag_type tc hz gp [{ ty := LuaType.generic base args, range := rg }] =
      expectedConstraintDiags tc hz gps rg 0 args ∧
    ∀ d ∈ expectedConstraintDiags tc hz gps rg 0 args, d.range = rg := by
  have key : ∀ (as : List LuaType) (i : Nat),
      (∀ j, j < as.length → ∃ n e, gps[i + j]? = some (n, some e)) →
      checkGenericArgs tc hz gps rg i as =
        (expectedConstraintDiags tc hz gps rg i as, false) := by
    intro as
    induction as with
    | nil => intro i _; rfl
    | cons a rest ih =>
      intro i hall
      obtain ⟨n, e, hget⟩ := hall 0 (by simp)
      have hrest : ∀ j, j < rest.length → ∃ n e,
          gps[i + 1 + j]? = some (n, some e) := by
        intro j hj
        have := hall (j + 1) (by simpa using Nat.succ_lt_succ hj)
        simpa [Nat.add_assoc, Nat.add_comm 1 j] using this
      have hi0 : gps[i]? = some (n, some e) := by simpa using hget
      simp only [checkGenericArgs, expectedConstraintDiags, hi0, ih (i + 1) hrest]
      cases tc e a with
      | ok u => simp
      | error re => simp
  have hranges : ∀ (as : List LuaType) (i : Nat),
      ∀ d ∈ expectedConstraintDiags tc hz gps rg i as, d.range = rg := by
    intro as
    induction as with
    | nil => intro i d hd; simp [expectedConstraintDiags] at hd
    | cons a rest ih =>
      intro i d hd
      simp only [expectedConstraintDiags, List.mem_append] at hd
      rcases hd with hd | hd
      · cases hget : gps[i]? with
        | none => simp [hget] at hd
        | some p =>
          obtain ⟨n1, ob⟩ := p
          cases ob with
          | none => simp [hget] at hd
          | some ext =>
            cases htc : tc ext a with
            | ok u => simp [hget, htc] at hd
            | error re =>
              simp [hget, htc] at hd
              simp [hd, mkConstraintDiag]
      · exact ih (i + 1) d hd
  refine ⟨?_, hranges args 0⟩
  have h0 : ∀ j, j < args.length → ∃ n e, gps[0 + j]? = some (n, some e) := by
    simpa using hb
  simp only [check_doc_tag_type, hgp, key args 0 h0]
  simp

/-- Claim C3 (amended) at a concrete input: `Foo2<nil, boolean>` with bounds
`extends nil` (satisfied) and `extends Base` (violated) yields exactly one
diagnostic, at the application's range. -/
theorem c3_doc_tag_amended_witness :
    check_doc_tag_type tcDemo hzDemo
      (fun s => if s = "Foo2" then
          some [("T", some LuaType.luaNil), ("U", some (LuaType.ref "Base"))]
        else none)
      [{ ty := LuaType.generic "Foo2" [LuaType.luaNil, LuaType.boolean],
         range := 9 }] =
      [mkConstraintDiag hzDemo 9 (LuaType.ref "Base")
        TypeCheckFailReason.typeNotMatch] := by
  have h := c3_doc_tag_amended tcDemo hzDemo
    (fun s => if s = "Foo2" then
        some [("T", some LuaType.luaNil), ("U", some (LuaType.ref "Base"))]
      else none)
    "Foo2" [("T", some LuaType.luaNil), ("U", some (LuaType.ref "Base"))] 9
    [LuaType.luaNil, LuaType.boolean] (by simp)
    (by
      intro j hj
      have hj2 : j < 2 := by simpa using hj
      interval_cases j
      · exact ⟨"T", LuaType.luaNil, rfl⟩
      · exact ⟨"U", LuaType.ref "Base", rfl⟩)
  rw [h.1]
  rfl

/-- Modelled from the spec: `LuaType::is_string` is not among the analysed
files; the spec's carve-out speaks of the bound and the argument being "both
plain `string`", so the predicate holds exactly for the plain string
primitive type. -/
def LuaType.is_string : LuaType → Bool
  | LuaType.str => true
  | _ => false

/-- `check_str_tpl_ref`: an unresolvable bound aborts silently; an absent or
uninferable argument aborts silently; when the bound and the inferred argument
type are both plain `string`, the check passes unconditionally; otherwise only
a string-constant argument is checked, by `type_check`ing the bound against a
`Ref` to the name `pre ++ literal ++ suf`, a failure emitting one diagnostic
at the argument's range; arguments of any other type are not checked. -/
def check_str_tpl_ref (tc : LuaType → LuaType → TypeCheckResult)
    (hz : LuaType → String) (extendType : Option LuaType)
    (arg : Option (LuaType × Nat)) (pre suf : String) : List Diagnostic :=
  match extendType with
  | none => []
  | some ext =>
    match arg with
    | none => []
    | some (argTy, rg) =>
      if ext.is_string && argTy.is_string then []
      else
        match argTy with
        | LuaType.stringConst s =>
          let result := tc ext (LuaType.ref (pre ++ s ++ suf))
          if resultIsOk result then []
          else add_type_check_diagnostic hz [] rg ext result
        | _ => []

/-- `check_tpl_ref`: an unresolvable bound aborts silently; an absent or
uninferable argument aborts silently; otherwise the bound is `type_check`ed
against the inferred argument type and any failure emits one diagnostic at the
argument's range. -/
def check_tpl_ref (tc : LuaType → LuaType → TypeCheckResult)
    (hz : LuaType → String) (extendType : Option LuaType)
    (arg : Option (LuaType × Nat)) : List Diagnostic :=
  match extendType with
  | none => []
  | some ext =>
    match arg with
    | none => []
    | some (argTy, rg) =>
      let result := tc ext argTy
      if resultIsOk result then []
      else add_type_check_diagnostic hz [] rg ext result

/-- Claim C4: the call-site string-template check passes unconditionally when
bound and inferred argument type are both plain `string`; otherwise a
string-constant argument with literal `s` is checked exactly as
`type_check(bound, Ref(pre ++ s ++ suf))`, a failure producing one diagnostic
at the argument's range and a pass producing none; arguments of any other
type are never checked and produce no diagnostic. -/
theorem c4_str_tpl_check (tc : LuaType → LuaType → TypeCheckResult)
    (hz : LuaType → String) (ext argTy : LuaType) (pre suf : String) (rg : Nat) :
    (ext.is_string = true → argTy.is_string = true →
      check_str_tpl_ref tc hz (some ext) (some (argTy, rg)) pre suf = []) ∧
    (∀ s, argTy = LuaType.stringConst s →
      check_str_tpl_ref tc hz (some ext) (some (argTy, rg)) pre suf =
        add_type_check_diagnostic hz [] rg ext (tc ext (LuaType.ref (pre ++ s ++ suf))) ∧
      (∀ u, tc ext (LuaType.ref (pre ++ s ++ suf)) = Except.ok u →
        check_str_tpl_ref tc hz (some ext) (some (argTy, rg)) pre suf = []) ∧
      (∀ re, tc ext (LuaType.ref (pre ++ s ++ suf)) = Except.error re →
        check_str_tpl_ref tc hz (some ext) (some (argTy, rg)) pre suf =
          [mkConstraintDiag hz rg ext re])) ∧
    ((∀ s, argTy ≠ LuaType.stringConst s) →
      check_str_tpl_ref tc hz (some ext) (some (argTy, rg)) pre suf = []) := by
  refine ⟨?_, ?_, ?_⟩
  · intro h1 h2
    simp [check_str_tpl_ref, h1, h2]
  · intro s hs
    subst hs
    have hns : (LuaType.stringConst s).is_string = false := rfl
    refine ⟨?_, ?_, ?_⟩
    · cases htc : tc ext (LuaType.ref (pre ++ s ++ suf)) with
      | ok u =>
        simp [check_str_tpl_ref, hns, htc, add_type_check_diagnostic, resultIsOk]
      | error re =>
        simp [check_str_tpl_ref, hns, htc, add_type_check_diagnostic, resultIsOk]
    · intro u htc
      simp [check_str_tpl_ref, hns, htc, resultIsOk]
    · intro re htc
      simp [check_str_tpl_ref, hns, htc, resultIsOk, add_type_check_diagnostic]
  · intro hne
    cases argTy
    case stringConst s => exact absurd rfl (hne s)
    all_goals simp [check_str_tpl_ref, LuaType.is_string]

/-- Claim C4 at a concrete input: bound `Cls`, argument `"Y"` with empty
prefix and suffix, checked as `type_check(Cls, Ref("Y"))`, which fails under
the demo nominal checker and yields one diagnostic at the argument's range. -/
theorem c4_str_tpl_check_witness :
    check_str_tpl_ref tcDemo hzDemo (some (LuaType.ref "Cls"))
      (some (LuaType.stringConst "Y", 3)) "" "" =
      [mkConstraintDiag hzDemo 3 (LuaType.ref "Cls")
        TypeCheckFailReason.typeNotMatch] := by
  have h := (c4_str_tpl_check tcDemo hzDemo (LuaType.ref "Cls")
    (LuaType.stringConst "Y") "" "" 3).2.1 "Y" rfl
  exact h.2.2 TypeCheckFailReason.typeNotMatch rfl

/-- A type check that reports `DonotCheck` on every query, standing for a
comparison the engine intentionally skips. -/
def tcDonot : LuaType → LuaType → TypeCheckResult := fun _ _ =>
  Except.error TypeCheckFailReason.donotCheck

/-- Claim C5: the spec says a `DonotCheck` result is treated as success and
stays silent.  In the code `DonotCheck` is an `Err`, so `check_tpl_ref`
reaches `add_type_check_diagnostic`, which emits a `GenericConstraintMismatch`
diagnostic (with an empty reason text) instead of none. -/
theorem c5_donot_check_counterexample :
    check_tpl_ref tcDonot hzDemo (some LuaType.luaNil)
      (some (LuaType.luaNil, 5)) =
      [mkConstraintDiag hzDemo 5 LuaType.luaNil TypeCheckFailReason.donotCheck] ∧
    (check_tpl_ref tcDonot hzDemo (some LuaType.luaNil)
      (some (LuaType.luaNil, 5))).length ≠ 0 := by
  exact ⟨rfl, by decide⟩

/-- Claim C5 (amended): a `DonotCheck` type-check result is treated by the
generic constraint pass like any other failure: `check_tpl_ref` emits exactly
one `GenericConstraintMismatch` diagnostic at the argument's range, whose
message carries an empty reason text. -/
theorem c5_donot_check_amended (tc : LuaType → LuaType → TypeCheckResult)
    (hz : LuaType → String) (ext argTy : LuaType) (rg : Nat)
    (h : tc ext argTy = Except.error TypeCheckFailReason.donotCheck) :
    check_tpl_ref tc hz (some ext) (some (argTy, rg)) =
      [{ code := DiagnosticCode.genericConstraintMismatch
         range := rg
         message := constraintMessage (hz ext) "" }] := by
  simp [check_tpl_ref, h, resultIsOk, add_type_check_diagnostic,
    mkConstraintDiag, reasonMessage]

/-- Claim C5 (amended) at a concrete input: a skipped check on `nil` at range
5 produces the one empty-reason diagnostic. -/
theorem c5_donot_check_amended_witness :
    check_tpl_ref tcDonot hzDemo (some LuaType.luaNil)
      (some (LuaType.luaNil, 5)) =
      [{ code := DiagnosticCode.genericConstraintMismatch
         range := 5
         message := constraintMessage (hzDemo LuaType.luaNil) "" }] :=
  c5_donot_check_amended tcDonot hzDemo LuaType.luaNil LuaType.luaNil 5 rfl

/-- The resolved "nameable thing" kinds (`LuaSemanticDeclId`): a variable
declaration, a member, or a signature. -/
inductive SemDeclId where
  | member (id : Nat)
  | luaDecl (id : Nat)
  | signatureDecl (id : Nat)
  deriving DecidableEq

/-- The declaration graph `find_enum_origin` walks, abstracted from the
database: `valueNode d` is whether decl `d` exists, has a bound value
expression and its syntax node can be re-located (the chain of `?` lookups at
the top of the function); `semValue d` is what that value node's semantic
declaration resolves to; `declExists` and `hasValueSyntax` are the lookups
performed on the next declaration in the chain before recursing. -/
structure DeclDb where
  valueNode : Nat → Bool
  semValue : Nat → Option SemDeclId
  declExists : Nat → Bool
  hasValueSyntax : Nat → Bool

/-- `find_enum_origin` as written in the source: a direct recursion with no
visited set, following a declaration's value expression to the declaration it
resolves to and recursing whenever that declaration has a value expression of
its own (`unwrap_or` keeping the last id when the recursion yields nothing).
The embedding adds an explicit fuel argument; the outer `none` means the fuel
ran out, i.e. the source recursion is still running at that depth, while
`some r` means the source returns `r` (itself an `Option` declaration id). -/
def find_enum_origin (db : DeclDb) : Nat → Nat → Option (Option Nat)
  | 0, _ => none
  | fuel + 1, d =>
    if db.valueNode d = false then some none
    else
      match db.semValue d with
      | some (SemDeclId.member _) => some none
      | some (SemDeclId.luaDecl d2) =>
        if db.declExists d2 = false then some none
        else if db.hasValueSyntax d2 then
          match find_enum_origin db fuel d2 with
          | none => none
          | some r => some (some (r.getD d2))
        else some (some d2)
      | _ => some none

/-- A declaration graph with a self-referential value chain: every
declaration exists, has a value expression, and that value expression's
semantic declaration resolves back to the declaration itself. -/
def cyclicDeclDb : DeclDb :=
  { valueNode := fun _ => true
    semValue := fun d => some (SemDeclId.luaDecl d)
    declExists := fun _ => true
    hasValueSyntax := fun _ => true }

/-- Claim C6: the spec says `find_enum_origin`'s chain-following is iterative
with a visited set guarding cycles, terminating for every input.  The source
function is directly recursive with no visited set: on a declaration whose
value expression resolves back to itself it recurses at every depth, so for
every fuel bound the embedded recursion is still running (no result is ever
reached), modelling unbounded recursion on the cyclic chain. -/
theorem c6_find_enum_origin_unbounded_on_cycle :
    ∀ (fuel d : Nat), find_enum_origin cyclicDeclDb fuel d = none := by
  intro fuel
  induction fuel with
  | zero => intro d; rfl
  | succ n ih =>
    intro d
    have hstep : find_enum_origin cyclicDeclDb (n + 1) d =
        match find_enum_origin cyclicDeclDb n d with
        | none => none
        | some r => some (some (r.getD d)) := rfl
    rw [hstep, ih d]

/-- Modelled from the spec: the builder type of the hover humanizer
(`HoverBuilder`) lives outside the analysed files; the spec describes it as
carrying the output (the primary type description), an overload list, the
accumulated descriptions, and a side list of deferred expansion blocks. -/
structure HoverBuilder where
  typeDescription : String
  signatureOverload : Option (List String)
  descriptions : List String
  typeExpansions : List String
  deriving DecidableEq

/-- Modelled from the spec: `builder.add_signature_overload(s)` appends one
overload line to the builder's overload list. -/
def addSignatureOverload (b : HoverBuilder) (s : String) : HoverBuilder :=
  { b with signatureOverload := some ((b.signatureOverload.getD []) ++ [s]) }

/-- Modelled from the spec: `builder.add_description_from_info(d)` appends a
present description and ignores an absent one. -/
def addDescriptionFromInfo (b : HoverBuilder) (d : Option String) : HoverBuilder :=
  match d with
  | some s => { b with descriptions := b.descriptions ++ [s] }
  | none => b

/-- `hover_multi_line_union_type`: when no type name is supplied the header is
a parenthesized `|`-joined summary of the renderings of at most the first 10
branches; the expansion text starts with the header line and then one line per
branch (`    | type` with ` -- description` appended when present); the
expansion text is appended to the builder's side list of type expansions and
the header alone is returned.  `hz` stands for `humanize_type(db, _, level)`;
the first component of the result is the returned `Option<String>`, the second
the builder's type-expansion list after the call. -/
def hover_multi_line_union_type (hz : RenderLevel → LuaType → String)
    (expansions : List String) (members : List (LuaType × Option String))
    (tyName : Option String) : Option String × List String :=
  let typeName : Option String :=
    if tyName.isNone then
      some ("(" ++
        String.intercalate "|"
          ((members.take 10).map (fun p => hz RenderLevel.simple p.1)) ++ ")")
    else tyName
  let text := members.foldl (fun acc p =>
      match p.2 with
      | some desc =>
          acc ++ "    | " ++ hz RenderLevel.minimal p.1 ++ " -- " ++ desc ++ "\n"
      | none => acc ++ "    | " ++ hz RenderLevel.minimal p.1 ++ "\n")
    ((typeName.getD "") ++ ":\n")
  (typeName, expansions ++ [text])

/-- The header the spec expects for an unnamed multi-line union: the `|`-join
of the renderings of at most the first 10 branches, parenthesized. -/
def mluSummaryHeader (hz : RenderLevel → LuaType → String)
    (members : List (LuaType × Option String)) : String :=
  "(" ++
    String.intercalate "|"
      ((members.take 10).map (fun p => hz RenderLevel.simple p.1)) ++ ")"

/-- The line the spec expects for one branch of a multi-line union: the
branch's rendering, with its description appended after " -- " when present. -/
def mluBranchLine (hz : RenderLevel → LuaType → String)
    (p : LuaType × Option String) : String :=
  "    | " ++ hz RenderLevel.minimal p.1 ++
    (match p.2 with
     | some d => " -- " ++ d
     | none => "") ++ "\n"

/-- Concatenation of a list of lines. -/
def joinLines : List String -> String
  | [] => ""
  | s :: rest => s ++ joinLines rest

/-- Folding string concatenation over a list is appending the concatenation
of the mapped pieces. -/
theorem foldl_append_joinLines {a : Type} (f : a -> String) (l : List a)
    (init : String) :
    l.foldl (fun acc x => acc ++ f x) init = init ++ joinLines (l.map f) := by
  induction l generalizing init with
  | nil => simp [joinLines]
  | cons x xs ih =>
    simp only [List.foldl_cons, List.map_cons, joinLines, ih]
    simp [String.append_assoc]

/-- Claim C7: for a multi-line union rendered without a supplied type name,
the returned primary rendering is exactly the parenthesized `|`-joined summary
of at most the first 10 branch renderings, and the builder's type-expansion
side list gains exactly one block consisting of that header line followed by
one line per branch, in order, each carrying its description after " -- "
when present. -/
theorem c7_multi_line_union_hover (hz : RenderLevel → LuaType → String)
    (expansions : List String) (members : List (LuaType × Option String)) :
    (hover_multi_line_union_type hz expansions members none).1 =
      some (mluSummaryHeader hz members) ∧
    (hover_multi_line_union_type hz expansions members none).2 =
      expansions ++
        [mluSummaryHeader hz members ++ ":\n" ++
          joinLines (members.map (mluBranchLine hz))] := by
  constructor
  · rfl
  · have hfun : (fun (acc : String) (p : LuaType × Option String) =>
        match p.2 with
        | some desc =>
            acc ++ "    | " ++ hz RenderLevel.minimal p.1 ++ " -- " ++ desc ++ "\n"
        | none => acc ++ "    | " ++ hz RenderLevel.minimal p.1 ++ "\n") =
        (fun acc p => acc ++ mluBranchLine hz p) := by
      funext acc p
      cases h2 : p.2 with
      | none => simp [mluBranchLine, h2, String.append_assoc]
      | some d => simp [mluBranchLine, h2, String.append_assoc]
    simp only [hover_multi_line_union_type, Option.isNone_none, if_true,
      Option.getD_some]
    rw [hfun, foldl_append_joinLines]
    simp [mluSummaryHeader, String.append_assoc]

/-- Per-candidate rendering record built by `hover_function_type`'s loop
(`HoverFunctionInfo`). -/
structure HoverFunctionInfo where
  typeDescription : String
  overloads : Option (List String)
  description : Option String
  isCallFunction : Bool

/-- Result of `hover_signature_type` (`HoverSignatureResult`): the primary
signature text, the overload lines (`None` on an exact call match), and the
matched call function when one was found. -/
structure HoverSignatureResult where
  typeDescription : String
  overloads : Option (List String)
  callFunction : Option LuaFunctionType

/-- The database- and rendering-dependent inputs of the hover path,
abstracted: the signature index, the string renderers (which in the source
consult the member indices, global names and return docs), and the
description extraction keyed by the candidate's semantic declaration id. -/
structure HoverEnv where
  sigIndex : Nat → Option LuaSignature
  renderDocFn : Nat → LuaFunctionType → String
  renderSig : Nat → Nat → String
  renderOverload : Nat → LuaFunctionType → String
  getDesc : Nat → Option String

/-- Whether the concrete call expression's resolved function matches the
signature's own parameter list (the comparison guarding the first early
return of `hover_signature_type`). -/
def sigParamsMatchCall (cf : Option LuaFunctionType) (sig : LuaSignature) : Bool :=
  match cf with
  | some call => beqParams call.params sig.params
  | none => false

/-- The overload loop of `hover_signature_type`: each overload is rendered
and collected, except that an overload equal to the resolved call function
returns early (`Sum.inl`) with that single rendering, no overload list, and
the call function recorded. -/
def overloadLoop (renderOv : LuaFunctionType → String)
    (cf : Option LuaFunctionType) :
    List LuaFunctionType → Sum HoverSignatureResult (List String)
  | [] => Sum.inr []
  | ov :: rest =>
    if (match cf with
        | some call => beqFn call ov
        | none => false) then
      Sum.inl { typeDescription := renderOv ov, overloads := none,
                callFunction := cf }
    else
      match overloadLoop renderOv cf rest with
      | Sum.inl r => Sum.inl r
      | Sum.inr ss => Sum.inr (renderOv ov :: ss)

/-- `hover_signature_type` after the signature lookup: when the call
function's parameter list equals the signature's, return the signature's own
rendering with no overload list and the call function recorded; otherwise run
the overload loop; with no early return, the result carries the rendered
overload list and no call function. -/
def hover_signature_type (renderSig : String)
    (renderOv : LuaFunctionType → String) (sig : LuaSignature)
    (cf : Option LuaFunctionType) : HoverSignatureResult :=
  if sigParamsMatchCall cf sig then
    { typeDescription := renderSig, overloads := none, callFunction := cf }
  else
    match overloadLoop renderOv cf sig.overloads with
    | Sum.inl r => r
    | Sum.inr ovs =>
      { typeDescription := renderSig, overloads := some ovs,
        callFunction := none }

/-- One entry of the hovered overload set (`semantic_decls`): the semantic
declaration identity (`declKey`, used for the handled-set and description
lookup), whether it is a member id whose member-index lookup fails (the `?`
that aborts `hover_function_type`), and the entry's type. -/
structure HoverCandidate where
  declKey : Nat
  memberAbort : Bool
  ty : LuaType

/-- The body of `hover_function_type`'s loop for one candidate: `none` models
the aborting member lookup; `some none` models `continue` (a union type);
otherwise the built `HoverFunctionInfo`, whose `isCallFunction` flag is set
for a doc function whose parameter list equals the resolved call function's
and for a signature whose `hover_signature_type` found a call match. -/
def candInfo (env : HoverEnv) (cf : Option LuaFunctionType) (name : String)
    (isNew : Bool) (c : HoverCandidate) : Option (Option HoverFunctionInfo) :=
  if c.memberAbort then none
  else
    let desc := if isNew then env.getDesc c.declKey else none
    some (match c.ty with
      | LuaType.union _ => none
      | LuaType.function =>
        some { typeDescription := "function " ++ name ++ "()",
               overloads := none, description := desc, isCallFunction := false }
      | LuaType.docFunction ia ic ps r =>
        some { typeDescription := env.renderDocFn c.declKey ⟨ia, ic, ps, r⟩,
               overloads := none, description := desc,
               isCallFunction :=
                 match cf with
                 | some call => beqParams call.params ps
                 | none => false }
      | LuaType.signature sid =>
        match env.sigIndex sid with
        | none =>
          some { typeDescription := "function " ++ name, overloads := none,
                 description := desc, isCallFunction := false }
        | some sig =>
          let r := hover_signature_type (env.renderSig c.declKey sid)
            (env.renderOverload c.declKey) sig cf
          some { typeDescription := r.typeDescription, overloads := r.overloads,
                 description := desc,
                 isCallFunction := r.callFunction.isSome }
      | _ =>
        some { typeDescription := "function " ++ name, overloads := none,
               description := desc, isCallFunction := false })

/-- The candidate loop of `hover_function_type`: each candidate's semantic
declaration id is inserted into the handled set, union types are skipped, an
aborting lookup stops everything, and a candidate whose info is flagged as
the call function clears the collected list, keeps only that info and breaks. -/
def buildInfos (env : HoverEnv) (cf : Option LuaFunctionType) (name : String) :
    List HoverCandidate → List Nat → List HoverFunctionInfo →
    Option (List HoverFunctionInfo)
  | [], _, acc => some acc
  | c :: rest, handled, acc =>
    let isNew := !(handled.contains c.declKey)
    match candInfo env cf name isNew c with
    | none => none
    | some none => buildInfos env cf name rest (c.declKey :: handled) acc
    | some (some i) =>
      if i.isCallFunction then some [i]
      else buildInfos env cf name rest (c.declKey :: handled) (acc ++ [i])

/-- The walk of `Vec::dedup_by_key` past the first retained entry: each
entry whose key equals the last retained entry's key is dropped, the others
are retained in turn. -/
def dedupGo (prev : HoverFunctionInfo) :
    List HoverFunctionInfo → List HoverFunctionInfo
  | [] => []
  | x :: xs =>
    if prev.typeDescription == x.typeDescription then dedupGo prev xs
    else x :: dedupGo x xs

/-- `Vec::dedup_by_key` on the rendered type description: removes all but the
first of consecutive entries whose keys compare equal (each entry is compared
against the last retained one). -/
def dedupByTypeDescription : List HoverFunctionInfo → List HoverFunctionInfo
  | [] => []
  | a :: rest => a :: dedupGo a rest

/-- The post-loop assembly of `hover_function_type` when no call match was
found: zero infos yield `None`; one info becomes the primary description; with
several, the last becomes primary and each earlier one contributes its
rendering and its overload lines to the builder's overload list plus its
description. -/
def assembleHover (b : HoverBuilder) :
    List HoverFunctionInfo → Option HoverBuilder
  | [] => none
  | [info] =>
    some (addDescriptionFromInfo
      { b with typeDescription := info.typeDescription } info.description)
  | a :: c :: rest =>
    match (a :: c :: rest).getLast? with
    | none => none
    | some main =>
      let b1 := addDescriptionFromInfo
        { b with typeDescription := main.typeDescription } main.description
      some ((a :: c :: rest).dropLast.foldl (fun bb info =>
        let bb1 := addSignatureOverload bb info.typeDescription
        let bb2 :=
          match info.overloads with
          | some ovs => ovs.foldl addSignatureOverload bb1
          | none => bb1
        addDescriptionFromInfo bb2 info.description) b1)

/-- `hover_function_type`: `None` on an empty overload set or when the
name-resolution prelude fails (`nameInfo`, standing for the declaration/member
lookup on the first candidate); otherwise run the candidate loop, and if the
first collected info is flagged as the call function, clear the builder's
overload list, show only that info's rendering and description and return;
otherwise deduplicate and assemble. -/
def hover_function_type (env : HoverEnv) (cf : Option LuaFunctionType)
    (nameInfo : Option String) (b : HoverBuilder)
    (cands : List HoverCandidate) : Option HoverBuilder :=
  match cands with
  | [] => none
  | _ :: _ =>
    match nameInfo with
    | none => none
    | some name =>
      match buildInfos env cf name cands [] [] with
      | none => none
      | some typeDescs =>
        match typeDescs with
        | info :: _ =>
          if info.isCallFunction then
            some (addDescriptionFromInfo
              { b with typeDescription := info.typeDescription,
                       signatureOverload := none } info.description)
          else assembleHover b (dedupByTypeDescription typeDescs)
        | [] => assembleHover b (dedupByTypeDescription typeDescs)

/-- Whether a candidate triggers the call-function match: a doc function
whose parameter list equals the resolved call function's, or a signature
whose own parameter list equals it or one of whose overloads equals the call
function outright. -/
def isCallCandidate (sigIndex : Nat → Option LuaSignature)
    (cf : Option LuaFunctionType) (c : HoverCandidate) : Bool :=
  match cf with
  | none => false
  | some call =>
    match c.ty with
    | LuaType.docFunction _ _ ps _ => beqParams call.params ps
    | LuaType.signature sid =>
      match sigIndex sid with
      | none => false
      | some sig =>
        beqParams call.params sig.params ||
          sig.overloads.any (fun ov => beqFn call ov)
    | _ => false

/-- The overload loop returns early exactly when some overload equals the
resolved call function, and then records the call function. -/
theorem overloadLoop_call (renderOv : LuaFunctionType → String)
    (call : LuaFunctionType) (l : List LuaFunctionType) :
    (match overloadLoop renderOv (some call) l with
     | Sum.inl r => r.callFunction.isSome
     | Sum.inr _ => false) = l.any (fun ov => beqFn call ov) := by
  induction l with
  | nil => rfl
  | cons ov rest ih =>
    by_cases h : beqFn call ov = true
    · simp [overloadLoop, h]
    · have hfalse : beqFn call ov = false := by
        cases hb : beqFn call ov
        · rfl
        · exact absurd hb h
      simp only [overloadLoop, hfalse, if_false, Bool.false_eq_true,
        List.any_cons, Bool.false_or]
      cases hrec : overloadLoop renderOv (some call) rest with
      | inl r =>
        rw [hrec] at ih
        simpa using ih
      | inr ss =>
        rw [hrec] at ih
        simpa using ih

/-- With no resolved call function the overload loop never returns early. -/
theorem overloadLoop_none (renderOv : LuaFunctionType → String)
    (l : List LuaFunctionType) :
    ∃ ss, overloadLoop renderOv none l = Sum.inr ss := by
  induction l with
  | nil => exact ⟨[], rfl⟩
  | cons ov rest ih =>
    obtain ⟨ss, hss⟩ := ih
    exact ⟨renderOv ov :: ss, by simp [overloadLoop, hss]⟩

/-- `hover_signature_type` records a call function exactly when the call
matches the signature's parameter list or equals one of its overloads. -/
theorem hover_signature_type_call (renderSig : String)
    (renderOv : LuaFunctionType → String) (sig : LuaSignature)
    (cf : Option LuaFunctionType) :
    (hover_signature_type renderSig renderOv sig cf).callFunction.isSome =
      (match cf with
       | some call =>
         beqParams call.params sig.params ||
           sig.overloads.any (fun ov => beqFn call ov)
       | none => false) := by
  cases cf with
  | none =>
    obtain ⟨ss, hss⟩ := overloadLoop_none renderOv sig.overloads
    simp [hover_signature_type, sigParamsMatchCall, hss]
  | some call =>
    by_cases h : beqParams call.params sig.params = true
    · simp [hover_signature_type, sigParamsMatchCall, h]
    · have hfalse : beqParams call.params sig.params = false := by
        cases hb : beqParams call.params sig.params
        · rfl
        · exact absurd hb h
      have hloop := overloadLoop_call renderOv call sig.overloads
      simp only [hover_signature_type, sigParamsMatchCall, hfalse,
        Bool.false_eq_true, if_false, Bool.false_or]
      cases hrec : overloadLoop renderOv (some call) sig.overloads with
      | inl r =>
        rw [hrec] at hloop
        simpa using hloop
      | inr ss =>
        rw [hrec] at hloop
        simpa using hloop

/-- A non-aborting candidate's info carries the call-function flag computed
by `isCallCandidate`. -/
theorem candInfo_isCall (env : HoverEnv) (cf : Option LuaFunctionType)
    (name : String) (isNew : Bool) (c : HoverCandidate)
    (i : HoverFunctionInfo)
    (h : candInfo env cf name isNew c = some (some i)) :
    i.isCallFunction = isCallCandidate env.sigIndex cf c := by
  by_cases habt : c.memberAbort = true
  · simp [candInfo, habt] at h
  · have hab2 : c.memberAbort = false := by
      cases hb : c.memberAbort
      · rfl
      · exact absurd hb habt
    cases hty : c.ty
    case neg.union ts => simp [candInfo, hab2, hty] at h
    case neg.signature sid =>
      cases hsig : env.sigIndex sid with
      | none =>
        simp only [candInfo, hab2, Bool.false_eq_true, if_false, hty, hsig,
          Option.some.injEq] at h
        subst h
        simp [isCallCandidate, hty, hsig]
        cases cf <;> simp
      | some sig =>
        simp only [candInfo, hab2, Bool.false_eq_true, if_false, hty, hsig,
          Option.some.injEq] at h
        subst h
        simp [isCallCandidate, hty, hsig, hover_signature_type_call]
        cases cf <;> rfl
    all_goals (
      simp only [candInfo, hab2, Bool.false_eq_true, if_false, hty,
        Option.some.injEq] at h
      subst h
      simp [isCallCandidate, hty]
      try (cases cf <;> simp))

/-- A non-aborting candidate never aborts the loop. -/
theorem candInfo_not_none (env : HoverEnv) (cf : Option LuaFunctionType)
    (name : String) (isNew : Bool) (c : HoverCandidate)
    (hab : c.memberAbort = false) :
    candInfo env cf name isNew c ≠ none := by
  simp [candInfo, hab]

/-- A skipped candidate (a union type) never triggers the call match. -/
theorem candInfo_skip (env : HoverEnv) (cf : Option LuaFunctionType)
    (name : String) (isNew : Bool) (c : HoverCandidate)
    (h : candInfo env cf name isNew c = some none) :
    isCallCandidate env.sigIndex cf c = false := by
  by_cases habt : c.memberAbort = true
  · simp [candInfo, habt] at h
  · have hab2 : c.memberAbort = false := by
      cases hb : c.memberAbort
      · rfl
      · exact absurd hb habt
    cases hty : c.ty
    case neg.union ts => cases cf <;> simp [isCallCandidate, hty]
    case neg.signature sid =>
      cases hsig : env.sigIndex sid <;>
        simp [candInfo, hab2, hty, hsig] at h
    all_goals simp [candInfo, hab2, hty] at h

/-- A matching, non-aborting candidate produces an info flagged as the call
function. -/
theorem candInfo_of_call (env : HoverEnv) (cf : Option LuaFunctionType)
    (name : String) (isNew : Bool) (c : HoverCandidate)
    (hab : c.memberAbort = false)
    (hcall : isCallCandidate env.sigIndex cf c = true) :
    ∃ i, candInfo env cf name isNew c = some (some i) ∧
      i.isCallFunction = true := by
  cases hci : candInfo env cf name isNew c with
  | none => exact absurd hci (candInfo_not_none env cf name isNew c hab)
  | some o =>
    cases o with
    | none =>
      have := candInfo_skip env cf name isNew c hci
      rw [hcall] at this
      exact absurd this (by simp)
    | some i =>
      refine ⟨i, rfl, ?_⟩
      rw [candInfo_isCall env cf name isNew c i hci]
      exact hcall

/-- The candidate loop collapses to the single matching info whenever every
earlier candidate neither aborts nor matches and some candidate matches. -/
theorem buildInfos_collapse (env : HoverEnv) (cf : Option LuaFunctionType)
    (name : String) (cand : HoverCandidate) (post : List HoverCandidate)
    (hab : cand.memberAbort = false)
    (hmatch : isCallCandidate env.sigIndex cf cand = true) :
    ∀ (pre : List HoverCandidate) (handled : List Nat)
      (acc : List HoverFunctionInfo),
    (∀ c ∈ pre, c.memberAbort = false ∧
      isCallCandidate env.sigIndex cf c = false) →
    ∃ i, i.isCallFunction = true ∧
      (∃ isNew, candInfo env cf name isNew cand = some (some i)) ∧
      buildInfos env cf name (pre ++ cand :: post) handled acc = some [i] := by
  intro pre
  induction pre with
  | nil =>
    intro handled acc _
    obtain ⟨i, hi, hic⟩ := candInfo_of_call env cf name
      (!(handled.contains cand.declKey)) cand hab hmatch
    refine ⟨i, hic, ⟨_, hi⟩, ?_⟩
    show buildInfos env cf name (cand :: post) handled acc = some [i]
    simp only [buildInfos, hi]
    rw [hic]
    simp
  | cons c rest ih =>
    intro handled acc hpre
    have hc := hpre c (by simp)
    have hrest : ∀ x ∈ rest, x.memberAbort = false ∧
        isCallCandidate env.sigIndex cf x = false := by
      intro x hx
      exact hpre x (by simp [hx])
    cases hci : candInfo env cf name (!(handled.contains c.declKey)) c with
    | none => exact absurd hci (candInfo_not_none env cf name _ c hc.1)
    | some o =>
      cases o with
      | none =>
        obtain ⟨i, hic, hex, hbi⟩ := ih (c.declKey :: handled) acc hrest
        refine ⟨i, hic, hex, ?_⟩
        show buildInfos env cf name (c :: (rest ++ cand :: post)) handled acc =
          some [i]
        simp only [buildInfos, hci]
        exact hbi
      | some j =>
        have hj : j.isCallFunction = false := by
          rw [candInfo_isCall env cf name _ c j hci]
          exact hc.2
        obtain ⟨i, hic, hex, hbi⟩ := ih (c.declKey :: handled) (acc ++ [j]) hrest
        refine ⟨i, hic, hex, ?_⟩
        show buildInfos env cf name (c :: (rest ++ cand :: post)) handled acc =
          some [i]
        simp only [buildInfos, hci]
        rw [hj]
        simpa using hbi

/-- Appending an optional description equals appending its `toList`. -/
theorem addDescriptionFromInfo_toList (b : HoverBuilder) (d : Option String) :
    addDescriptionFromInfo b d =
      { b with descriptions := b.descriptions ++ d.toList } := by
  cases d with
  | none => simp [addDescriptionFromInfo]
  | some s => simp [addDescriptionFromInfo]

/-- Claim C8: whenever the resolved call function of a concrete call
expression matches one hovered candidate (parameter-list equality for a doc
function or a signature, or outright equality with one of a signature's
overloads), and no earlier candidate matched or aborted, hover rendering
collapses to that single candidate: the builder's overload list is cleared to
`none` (zero overload entries), the primary description becomes that
candidate's rendering, and only that candidate's extracted description is
appended. -/
theorem c8_overload_collapse (env : HoverEnv) (call : LuaFunctionType)
    (name : String) (b : HoverBuilder) (pre post : List HoverCandidate)
    (cand : HoverCandidate)
    (hpre : ∀ c ∈ pre, c.memberAbort = false ∧
      isCallCandidate env.sigIndex (some call) c = false)
    (hab : cand.memberAbort = false)
    (hmatch : isCallCandidate env.sigIndex (some call) cand = true) :
    ∃ i : HoverFunctionInfo, i.isCallFunction = true ∧
      (∃ isNew, candInfo env (some call) name isNew cand = some (some i)) ∧
      hover_function_type env (some call) (some name) b (pre ++ cand :: post) =
        some { typeDescription := i.typeDescription
               signatureOverload := none
               descriptions := b.descriptions ++ i.description.toList
               typeExpansions := b.typeExpansions } := by
  obtain ⟨i, hic, hex, hbi⟩ := buildInfos_collapse env (some call) name cand
    post hab hmatch pre [] [] hpre
  refine ⟨i, hic, hex, ?_⟩
  have hne : ∃ x xs, pre ++ cand :: post = x :: xs := by
    cases pre with
    | nil => exact ⟨cand, post, rfl⟩
    | cons p ps => exact ⟨p, ps ++ cand :: post, rfl⟩
  obtain ⟨x, xs, hxs⟩ := hne
  rw [hxs] at hbi ⊢
  simp only [hover_function_type, hbi]
  rw [hic]
  simp [addDescriptionFromInfo_toList]

/-- A concrete hover environment for closed evaluation. -/
def envDemo : HoverEnv :=
  { sigIndex := fun _ => none
    renderDocFn := fun _ _ => "function Demo.f(a)"
    renderSig := fun _ _ => "function Demo.g(a)"
    renderOverload := fun _ _ => "function Demo.g(a, b)"
    getDesc := fun _ => some "demo description" }

/-- A concrete resolved call function taking one untyped parameter `a`. -/
def callDemo : LuaFunctionType :=
  { isAsync := false, isColonDefine := false, params := [("a", none)],
    ret := LuaType.luaNil }

/-- A concrete hovered candidate: a doc function with the same parameter
list as `callDemo`. -/
def candDemo : HoverCandidate :=
  { declKey := 0, memberAbort := false,
    ty := LuaType.docFunction false false [("a", none)] LuaType.luaNil }

/-- A concrete hover builder that already carries a stale overload list. -/
def builderDemo : HoverBuilder :=
  { typeDescription := "", signatureOverload := some ["stale overload"],
    descriptions := [], typeExpansions := [] }

/-- Claim C8 at a concrete input: hovering the one matching doc-function
candidate clears the stale overload list to `none` and shows only the match. -/
theorem c8_overload_collapse_witness :
    ∃ i : HoverFunctionInfo, i.isCallFunction = true ∧
      (∃ isNew, candInfo envDemo (some callDemo) "f" isNew candDemo =
        some (some i)) ∧
      hover_function_type envDemo (some callDemo) (some "f") builderDemo
          [candDemo] =
        some { typeDescription := i.typeDescription
               signatureOverload := none
               descriptions := builderDemo.descriptions ++ i.description.toList
               typeExpansions := builderDemo.typeExpansions } := by
  have h := c8_overload_collapse envDemo callDemo "f" builderDemo [] []
    candDemo (by simp) rfl (by decide)
  exact h

/-- An LSP diagnostic as consumed by `build_actions`: optional source string,
optional code (a number or a string), and a range token. -/
structure LspDiagnostic where
  source : Option String
  code : Option (Sum Int String)
  range : Nat

/-- The three disable quick-fix flavors produced per diagnostic. -/
inductive DisableActionKind where
  | currentLine
  | currentFile
  | project
  deriving DecidableEq

/-- A produced code action: which disable flavor, the diagnostic code's
display name (as spliced into the localized title), and the range it was
built from.  The workspace edits and commands are built by functions outside
the analysed files and are not modelled. -/
structure CodeActionModel where
  actKind : DisableActionKind
  codeName : String
  range : Nat
  deriving DecidableEq

/-- `add_fix_code_action`: a stub in the source, pushes nothing. -/
def add_fix_code_action (acts : List CodeActionModel) (_dc : DiagnosticCode)
    (_rg : Nat) : List CodeActionModel :=
  acts

/-- `add_disable_code_action`: `SyntaxError` diagnostics get no disable
actions; every other code pushes exactly three quick fixes — disable on the
current line, disable in the current file, disable in the project — titled
with the code's name (`cn`). -/
def add_disable_code_action (cn : DiagnosticCode → String)
    (acts : List CodeActionModel) (dc : DiagnosticCode) (rg : Nat) :
    List CodeActionModel :=
  if dc = DiagnosticCode.syntaxError then acts
  else
    acts ++
      [{ actKind := DisableActionKind.currentLine, codeName := cn dc, range := rg },
       { actKind := DisableActionKind.currentFile, codeName := cn dc, range := rg },
       { actKind := DisableActionKind.project, codeName := cn dc, range := rg }]

/-- `build_actions`: walk the diagnostics; skip those without a source, with
a source other than "EmmyLua", without a code, with a numeric code, or whose
string code does not parse as a `DiagnosticCode` (`parse` stands for
`DiagnosticCode::from_str`); for the rest run the fix stub and the disable
builder; return `None` when nothing was collected. -/
def build_actions (parse : String → Option DiagnosticCode)
    (cn : DiagnosticCode → String) (diags : List LspDiagnostic) :
    Option (List CodeActionModel) :=
  let acts := diags.foldl (fun acts d =>
    match d.source with
    | none => acts
    | some src =>
      if src ≠ "EmmyLua" then acts
      else
        match d.code with
        | some (Sum.inr s) =>
          match parse s with
          | some dc =>
            add_disable_code_action cn (add_fix_code_action acts dc d.range)
              dc d.range
          | none => acts
        | _ => acts) []
  if acts.isEmpty then none else some acts

/-- Whether a diagnostic qualifies for actions per the claim: source exactly
"EmmyLua" and a string code parsing to a known `DiagnosticCode` other than
`SyntaxError`. -/
def diagQualifies (parse : String → Option DiagnosticCode)
    (d : LspDiagnostic) : Bool :=
  match d.source, d.code with
  | some src, some (Sum.inr s) =>
    if src = "EmmyLua" then
      match parse s with
      | some dc => decide (dc ≠ DiagnosticCode.syntaxError)
      | none => false
    else false
  | _, _ => false

/-- The actions the claim expects from one diagnostic: none unless it
qualifies, and then exactly the three disable quick fixes at its range. -/
def perDiagActions (parse : String → Option DiagnosticCode)
    (cn : DiagnosticCode → String) (d : LspDiagnostic) :
    List CodeActionModel :=
  match d.source, d.code with
  | some src, some (Sum.inr s) =>
    if src = "EmmyLua" then
      match parse s with
      | some dc =>
        if dc = DiagnosticCode.syntaxError then []
        else
          [{ actKind := DisableActionKind.currentLine, codeName := cn dc,
             range := d.range },
           { actKind := DisableActionKind.currentFile, codeName := cn dc,
             range := d.range },
           { actKind := DisableActionKind.project, codeName := cn dc,
             range := d.range }]
      | none => []
    else []
  | _, _ => []

/-- Concatenation of the expected per-diagnostic actions. -/
def specActions (parse : String → Option DiagnosticCode)
    (cn : DiagnosticCode → String) : List LspDiagnostic →
    List CodeActionModel
  | [] => []
  | d :: ds => perDiagActions parse cn d ++ specActions parse cn ds

/-- One step of the `build_actions` fold appends that diagnostic's expected
actions. -/
theorem build_actions_step (parse : String → Option DiagnosticCode)
    (cn : DiagnosticCode → String) (acts : List CodeActionModel)
    (d : LspDiagnostic) :
    (match d.source with
     | none => acts
     | some src =>
       if src ≠ "EmmyLua" then acts
       else
         match d.code with
         | some (Sum.inr s) =>
           match parse s with
           | some dc =>
             add_disable_code_action cn (add_fix_code_action acts dc d.range)
               dc d.range
           | none => acts
         | _ => acts) = acts ++ perDiagActions parse cn d := by
  cases hsrc : d.source with
  | none => simp [perDiagActions, hsrc]
  | some src =>
    by_cases hemmy : src = "EmmyLua"
    · subst hemmy
      cases hcode : d.code with
      | none => simp [perDiagActions, hsrc, hcode]
      | some c =>
        cases c with
        | inl n => simp [perDiagActions, hsrc, hcode]
        | inr s =>
          cases hp : parse s with
          | none => simp [perDiagActions, hsrc, hcode, hp]
          | some dc =>
            by_cases hse : dc = DiagnosticCode.syntaxError
            · subst hse
              simp [perDiagActions, hsrc, hcode, hp,
                add_disable_code_action, add_fix_code_action]
            · simp [perDiagActions, hsrc, hcode, hp, hse,
                add_disable_code_action, add_fix_code_action]
    · cases hcode : d.code with
      | none => simp [perDiagActions, hsrc, hcode, hemmy]
      | some c =>
        cases c with
        | inl n => simp [perDiagActions, hsrc, hcode, hemmy]
        | inr s => simp [perDiagActions, hsrc, hcode, hemmy]

/-- The `build_actions` fold computes the concatenated expected actions. -/
theorem build_actions_fold (parse : String → Option DiagnosticCode)
    (cn : DiagnosticCode → String) (diags : List LspDiagnostic)
    (acts : List CodeActionModel) :
    diags.foldl (fun acts d =>
      match d.source with
      | none => acts
      | some src =>
        if src ≠ "EmmyLua" then acts
        else
          match d.code with
          | some (Sum.inr s) =>
            match parse s with
            | some dc =>
              add_disable_code_action cn (add_fix_code_action acts dc d.range)
                dc d.range
            | none => acts
          | _ => acts) acts = acts ++ specActions parse cn diags := by
  induction diags generalizing acts with
  | nil => simp [specActions]
  | cons d ds ih =>
    simp only [List.foldl_cons, specActions]
    rw [build_actions_step parse cn acts d, ih, List.append_assoc]

/-- A qualifying diagnostic contributes exactly its three disable actions; a
non-qualifying one contributes nothing. -/
theorem perDiagActions_length (parse : String → Option DiagnosticCode)
    (cn : DiagnosticCode → String) (d : LspDiagnostic) :
    (diagQualifies parse d = true → (perDiagActions parse cn d).length = 3) ∧
    (diagQualifies parse d = false → perDiagActions parse cn d = []) := by
  cases hsrc : d.source with
  | none => simp [diagQualifies, perDiagActions, hsrc]
  | some src =>
    by_cases hemmy : src = "EmmyLua"
    · subst hemmy
      cases hcode : d.code with
      | none => simp [diagQualifies, perDiagActions, hsrc, hcode]
      | some c =>
        cases c with
        | inl n => simp [diagQualifies, perDiagActions, hsrc, hcode]
        | inr s =>
          cases hp : parse s with
          | none => simp [diagQualifies, perDiagActions, hsrc, hcode, hp]
          | some dc =>
            by_cases hse : dc = DiagnosticCode.syntaxError
            · subst hse
              simp [diagQualifies, perDiagActions, hsrc, hcode, hp]
            · simp [diagQualifies, perDiagActions, hsrc, hcode, hp, hse]
    · cases hcode : d.code with
      | none => simp [diagQualifies, perDiagActions, hsrc, hcode, hemmy]
      | some c =>
        cases c with
        | inl n => simp [diagQualifies, perDiagActions, hsrc, hcode, hemmy]
        | inr s => simp [diagQualifies, perDiagActions, hsrc, hcode, hemmy]

/-- The concatenated expected actions are empty exactly when no diagnostic
qualifies. -/
theorem specActions_empty_iff (parse : String → Option DiagnosticCode)
    (cn : DiagnosticCode → String) (diags : List LspDiagnostic) :
    (specActions parse cn diags = [] ↔
      ∀ d ∈ diags, diagQualifies parse d = false) := by
  induction diags with
  | nil => simp [specActions]
  | cons d ds ih =>
    simp only [specActions, List.append_eq_nil, List.mem_cons]
    constructor
    · rintro ⟨h1, h2⟩ x hx
      rcases hx with hx | hx
      · subst hx
        cases hq : diagQualifies parse x with
        | false => rfl
        | true =>
          have h3 := (perDiagActions_length parse cn x).1 hq
          rw [h1] at h3
          simp at h3
      · exact ih.mp h2 x hx
    · intro h
      exact ⟨(perDiagActions_length parse cn d).2 (h d (Or.inl rfl)),
        ih.mpr (fun x hx => h x (Or.inr hx))⟩

/-- Claim C10: `build_actions` produces actions only for diagnostics whose
source is exactly "EmmyLua" and whose code is a string parsing to a known
`DiagnosticCode` other than `SyntaxError`; each qualifying diagnostic
contributes exactly three disable quick-fix actions (current line, current
file, project) in order; and the result is `None` exactly when no diagnostic
qualifies. -/
theorem c10_build_actions (parse : String → Option DiagnosticCode)
    (cn : DiagnosticCode → String) (diags : List LspDiagnostic) :
    build_actions parse cn diags =
      (if specActions parse cn diags = [] then none
       else some (specActions parse cn diags)) ∧
    (build_actions parse cn diags = none ↔
      ∀ d ∈ diags, diagQualifies parse d = false) ∧
    (∀ d ∈ diags, diagQualifies parse d = true →
      (perDiagActions parse cn d).length = 3) := by
  have hfold := build_actions_fold parse cn diags []
  have hmain0 : build_actions parse cn diags =
      (if (specActions parse cn diags).isEmpty then none
       else some (specActions parse cn diags)) := by
    simp only [build_actions, hfold, List.nil_append]
  have hconv : (if (specActions parse cn diags).isEmpty then none
       else some (specActions parse cn diags)) =
      (if specActions parse cn diags = [] then none
       else some (specActions parse cn diags)) := by
    generalize specActions parse cn diags = sa
    cases sa <;> simp
  have hmain : build_actions parse cn diags =
      (if specActions parse cn diags = [] then none
       else some (specActions parse cn diags)) := hmain0.trans hconv
  refine ⟨hmain, ?_, ?_⟩
  · rw [hmain]
    by_cases hsa : specActions parse cn diags = []
    · rw [if_pos hsa]
      constructor
      · intro _
        exact (specActions_empty_iff parse cn diags).mp hsa
      · intro _
        rfl
    · rw [if_neg hsa]
      constructor
      · intro h
        exact absurd h (by simp)
      · intro h
        exact absurd ((specActions_empty_iff parse cn diags).mpr h) hsa
  · intro d _ hq
    exact (perDiagActions_length parse cn d).1 hq

/-- A demo `DiagnosticCode` parser for closed evaluation. -/
def parseDemo : String → Option DiagnosticCode := fun s =>
  if s = "syntax-error" then some DiagnosticCode.syntaxError
  else if s = "generic-constraint-mismatch" then
    some DiagnosticCode.genericConstraintMismatch
  else none

/-- A demo code-name renderer. -/
def cnDemo : DiagnosticCode → String := fun dc =>
  match dc with
  | DiagnosticCode.genericConstraintMismatch => "generic-constraint-mismatch"
  | DiagnosticCode.syntaxError => "syntax-error"
  | DiagnosticCode.otherCode _ => "other"

/-- A demo qualifying diagnostic. -/
def diagDemo : LspDiagnostic :=
  { source := some "EmmyLua",
    code := some (Sum.inr "generic-constraint-mismatch"), range := 4 }

/-- Claim C10 at a concrete input: one qualifying diagnostic yields exactly
its three disable actions, and a lone non-qualifying diagnostic (a foreign
source) yields `None`. -/
theorem c10_build_actions_witness :
    build_actions parseDemo cnDemo [diagDemo] =
      some (perDiagActions parseDemo cnDemo diagDemo) ∧
    (perDiagActions parseDemo cnDemo diagDemo).length = 3 ∧
    build_actions parseDemo cnDemo
      [{ source := some "rustc", code := some (Sum.inr "dead-code"),
         range := 1 }] = none := by
  refine ⟨?_, ?_, ?_⟩
  · have h := (c10_build_actions parseDemo cnDemo [diagDemo]).1
    rw [h]
    have hne : specActions parseDemo cnDemo [diagDemo] ≠ [] := by decide
    rw [if_neg hne]
    have : specActions parseDemo cnDemo [diagDemo] =
        perDiagActions parseDemo cnDemo diagDemo := by decide
    rw [this]
  · exact (c10_build_actions parseDemo cnDemo [diagDemo]).2.2 diagDemo
      (by simp) (by decide)
  · exact (c10_build_actions parseDemo cnDemo
      [{ source := some "rustc", code := some (Sum.inr "dead-code"),
         range := 1 }]).2.1.mpr (by
        intro d hd
        simp only [List.mem_singleton] at hd
        subst hd
        decide)
